import Mathlib

/-!
Verification development for the terminal-screen core (vtbackend/Screen.h).

The shallow embedding below translates the inline member functions of
`terminal::Screen` into Lean functions over an explicit screen-state record.
Coordinates (`LineOffset`, `ColumnOffset`, `Top`, `Left`, ...) are boxed
signed integers in the source, so they become `Int` here.  Member functions
whose bodies live outside the provided sources (Screen.cpp, Grid.h, Line.h)
are modelled from the specification text and carry a doc comment saying so.
-/

namespace Contour

/-- CellLocation = line + column (both signed offsets in the source). -/
structure CellLocation where
  line : Int
  column : Int
deriving DecidableEq, Repr

/-- One dimension of a Margin: a closed range of offsets.  The source calls
the fields `from` and `to`; `from` is a Lean keyword, hence `from_`. -/
structure MarginRange where
  from_ : Int
  to_ : Int
deriving DecidableEq, Repr

/-- Margin: the scroll-region rectangle (vertical and horizontal ranges). -/
structure Margin where
  vertical : MarginRange
  horizontal : MarginRange
deriving DecidableEq, Repr

/-- PageSize { lines, columns }. -/
structure PageSize where
  lines : Int
  columns : Int
deriving DecidableEq, Repr

/-- Rect { top, left, bottom, right } as used by `applyOriginMode(Rect)`. -/
structure Rect where
  top : Int
  left : Int
  bottom : Int
  right : Int
deriving DecidableEq, Repr

/-- The cursor fields the coordinate functions consult: position and the
DECOM (origin mode) flag. -/
structure Cursor where
  position : CellLocation
  originMode : Bool
deriving DecidableEq, Repr

/-- The slice of Screen state used by the coordinate/clamping member
functions: `_grid.pageSize()` / `_settings.pageSize` (kept in sync by the
implementation, one field here), the margin, and the cursor. -/
structure CoordScreen where
  pageSize : PageSize
  margin : Margin
  cursor : Cursor
deriving DecidableEq, Repr

/-- std::clamp(v, lo, hi): v < lo gives lo, hi < v gives hi, otherwise v. -/
def cppClamp (v lo hi : Int) : Int :=
  if v < lo then lo else if hi < v then hi else v

/-- Screen::realCursorPosition: `return _state.cursor.position;`. -/
def realCursorPosition (s : CoordScreen) : CellLocation :=
  s.cursor.position

/-- Screen::logicalCursorPosition: identity without DECOM, else subtract the
margin's top-left corner. -/
def logicalCursorPosition (s : CoordScreen) : CellLocation :=
  if !s.cursor.originMode then realCursorPosition s
  else { line := s.cursor.position.line - s.margin.vertical.from_,
         column := s.cursor.position.column - s.margin.horizontal.from_ }

/-- Screen::toRealCoordinate: identity if DECOM is disabled, else translate
by the margin's top-left corner. -/
def toRealCoordinate (s : CoordScreen) (pos : CellLocation) : CellLocation :=
  if !s.cursor.originMode then pos
  else { line := pos.line + s.margin.vertical.from_,
         column := pos.column + s.margin.horizontal.from_ }

/-- Screen::applyOriginMode(Rect).  Transcribed faithfully from the source:
note that the source computes `left` from `area.top.value` (Screen.h line
357), not from `area.left.value`. -/
def applyOriginModeRect (s : CoordScreen) (area : Rect) : Rect :=
  if !s.cursor.originMode then area
  else
    { top := area.top + s.margin.vertical.from_,
      left := area.top + s.margin.horizontal.from_,
      bottom := area.bottom + s.margin.vertical.from_,
      right := area.right + s.margin.horizontal.from_ }

/-- Screen::clampToOrigin: clamp line to [0, margin.vertical.to_] and column
to [0, margin.horizontal.to_]. -/
def clampToOrigin (s : CoordScreen) (coord : CellLocation) : CellLocation :=
  { line := cppClamp coord.line 0 s.margin.vertical.to_,
    column := cppClamp coord.column 0 s.margin.horizontal.to_ }

/-- Screen::clampedLine: clamp to [0, pageSize.lines - 1]. -/
def clampedLine (s : CoordScreen) (line : Int) : Int :=
  cppClamp line 0 (s.pageSize.lines - 1)

/-- Screen::clampedColumn: clamp to [0, pageSize.columns - 1]. -/
def clampedColumn (s : CoordScreen) (column : Int) : Int :=
  cppClamp column 0 (s.pageSize.columns - 1)

/-- Screen::clampToScreen: clamp both components to the page. -/
def clampToScreen (s : CoordScreen) (coord : CellLocation) : CellLocation :=
  { line := clampedLine s coord.line, column := clampedColumn s coord.column }

/-- Screen::clampCoordinate: clampToOrigin under DECOM, clampToScreen
otherwise. -/
def clampCoordinate (s : CoordScreen) (coord : CellLocation) : CellLocation :=
  if s.cursor.originMode then clampToOrigin s coord else clampToScreen s coord

/-- Screen::contains.  Transcribed faithfully: the line check is strict
(`line < pageSize.lines`) but the column check is non-strict
(`column <= pageSize.columns`, Screen.h line 401). -/
def contains (s : CoordScreen) (coord : CellLocation) : Bool :=
  decide (0 ≤ coord.line) && decide (coord.line < s.pageSize.lines)
    && decide (0 ≤ coord.column) && decide (coord.column ≤ s.pageSize.columns)

/-- A 24x80 screen with full-page margin, DECOM off, used as concrete input. -/
def screen24x80 : CoordScreen :=
  { pageSize := { lines := 24, columns := 80 },
    margin := { vertical := { from_ := 0, to_ := 23 },
                horizontal := { from_ := 0, to_ := 79 } },
    cursor := { position := { line := 0, column := 0 }, originMode := false } }

/-- A 24x80 screen with margin rows 2..10, columns 3..20, DECOM on. -/
def screenDecom : CoordScreen :=
  { pageSize := { lines := 24, columns := 80 },
    margin := { vertical := { from_ := 2, to_ := 10 },
                horizontal := { from_ := 3, to_ := 20 } },
    cursor := { position := { line := 5, column := 7 }, originMode := true } }

theorem cppClamp_nonneg (v hi : Int) (h : 0 ≤ hi) : 0 ≤ cppClamp v 0 hi := by
  unfold cppClamp; split_ifs <;> omega

theorem cppClamp_le (v hi : Int) (h : 0 ≤ hi) : cppClamp v 0 hi ≤ hi := by
  unfold cppClamp; split_ifs <;> omega

theorem cppClamp_eq_self (v lo hi : Int) (h1 : lo ≤ v) (h2 : v ≤ hi) :
    cppClamp v lo hi = v := by
  unfold cppClamp; split_ifs <;> omega

end Contour

namespace Contour

/-- C5: clampToScreen lands in [0, lines) x [0, columns); clampCoordinate
under origin mode lands within the margin (line ≤ vertical.to, column ≤
horizontal.to); both are the identity on in-range coordinates; both are
total functions of every coordinate (no error signal for out-of-range
input). -/
theorem C5_clamping_bounds (s : CoordScreen) (c : CellLocation)
    (hl : 0 < s.pageSize.lines) (hc : 0 < s.pageSize.columns)
    (hv : 0 ≤ s.margin.vertical.to_) (hh : 0 ≤ s.margin.horizontal.to_) :
    (0 ≤ (clampToScreen s c).line ∧ (clampToScreen s c).line < s.pageSize.lines
      ∧ 0 ≤ (clampToScreen s c).column ∧ (clampToScreen s c).column < s.pageSize.columns)
    ∧ (s.cursor.originMode = true →
        0 ≤ (clampCoordinate s c).line
        ∧ (clampCoordinate s c).line ≤ s.margin.vertical.to_
        ∧ 0 ≤ (clampCoordinate s c).column
        ∧ (clampCoordinate s c).column ≤ s.margin.horizontal.to_)
    ∧ (0 ≤ c.line → c.line < s.pageSize.lines →
        0 ≤ c.column → c.column < s.pageSize.columns → clampToScreen s c = c)
    ∧ (s.cursor.originMode = true →
        0 ≤ c.line → c.line ≤ s.margin.vertical.to_ →
        0 ≤ c.column → c.column ≤ s.margin.horizontal.to_ →
        clampCoordinate s c = c) := by
  refine ⟨⟨?_, ?_, ?_, ?_⟩, ?_, ?_, ?_⟩
  · exact cppClamp_nonneg c.line (s.pageSize.lines - 1) (by omega)
  · show cppClamp c.line 0 (s.pageSize.lines - 1) < s.pageSize.lines
    have := cppClamp_le c.line (s.pageSize.lines - 1) (by omega); omega
  · exact cppClamp_nonneg c.column (s.pageSize.columns - 1) (by omega)
  · show cppClamp c.column 0 (s.pageSize.columns - 1) < s.pageSize.columns
    have := cppClamp_le c.column (s.pageSize.columns - 1) (by omega); omega
  · intro hm
    have hcc : clampCoordinate s c = clampToOrigin s c := by
      simp [clampCoordinate, hm]
    rw [hcc]
    exact ⟨cppClamp_nonneg _ _ hv, cppClamp_le _ _ hv,
           cppClamp_nonneg _ _ hh, cppClamp_le _ _ hh⟩
  · intro h1 h2 h3 h4
    show CellLocation.mk (cppClamp c.line 0 (s.pageSize.lines - 1))
          (cppClamp c.column 0 (s.pageSize.columns - 1)) = c
    rw [cppClamp_eq_self c.line 0 (s.pageSize.lines - 1) h1 (by omega),
        cppClamp_eq_self c.column 0 (s.pageSize.columns - 1) h3 (by omega)]
  · intro hm h1 h2 h3 h4
    have hcc : clampCoordinate s c = clampToOrigin s c := by
      simp [clampCoordinate, hm]
    rw [hcc]
    show CellLocation.mk (cppClamp c.line 0 s.margin.vertical.to_)
          (cppClamp c.column 0 s.margin.horizontal.to_) = c
    rw [cppClamp_eq_self c.line 0 s.margin.vertical.to_ h1 h2,
        cppClamp_eq_self c.column 0 s.margin.horizontal.to_ h3 h4]

theorem C5_clamping_bounds_witness :
    ((0 ≤ (clampToScreen screen24x80 ⟨30, -7⟩).line
        ∧ (clampToScreen screen24x80 ⟨30, -7⟩).line < screen24x80.pageSize.lines
        ∧ 0 ≤ (clampToScreen screen24x80 ⟨30, -7⟩).column
        ∧ (clampToScreen screen24x80 ⟨30, -7⟩).column < screen24x80.pageSize.columns)
      ∧ (screen24x80.cursor.originMode = true →
          0 ≤ (clampCoordinate screen24x80 ⟨30, -7⟩).line
          ∧ (clampCoordinate screen24x80 ⟨30, -7⟩).line ≤ screen24x80.margin.vertical.to_
          ∧ 0 ≤ (clampCoordinate screen24x80 ⟨30, -7⟩).column
          ∧ (clampCoordinate screen24x80 ⟨30, -7⟩).column ≤ screen24x80.margin.horizontal.to_)
      ∧ (0 ≤ (30 : Int) → (30 : Int) < screen24x80.pageSize.lines →
          0 ≤ (-7 : Int) → (-7 : Int) < screen24x80.pageSize.columns →
          clampToScreen screen24x80 ⟨30, -7⟩ = ⟨30, -7⟩)
      ∧ (screen24x80.cursor.originMode = true →
          0 ≤ (30 : Int) → (30 : Int) ≤ screen24x80.margin.vertical.to_ →
          0 ≤ (-7 : Int) → (-7 : Int) ≤ screen24x80.margin.horizontal.to_ →
          clampCoordinate screen24x80 ⟨30, -7⟩ = ⟨30, -7⟩)) :=
  C5_clamping_bounds screen24x80 ⟨30, -7⟩ (by decide) (by decide) (by decide) (by decide)

/-- C6: toRealCoordinate is the identity when DECOM is off and translates by
the margin's top-left corner when DECOM is on; in every state
toRealCoordinate (logicalCursorPosition) = realCursorPosition, i.e. the
logical-to-real and real-to-logical translations are mutually inverse. -/
theorem C6_toRealCoordinate_logical_inverse (s : CoordScreen) (pos : CellLocation) :
    toRealCoordinate s pos =
      (if s.cursor.originMode then
        { line := pos.line + s.margin.vertical.from_,
          column := pos.column + s.margin.horizontal.from_ }
       else pos)
    ∧ toRealCoordinate s (logicalCursorPosition s) = realCursorPosition s := by
  constructor
  · cases h : s.cursor.originMode <;> simp [toRealCoordinate, h]
  · cases h : s.cursor.originMode <;>
      simp [toRealCoordinate, logicalCursorPosition, realCursorPosition, h]

/-- The concrete Rect 〔top 1, left 5, bottom 6, right 7〕 exercising
applyOriginMode(Rect). -/
def c7Area : Rect := { top := 1, left := 5, bottom := 6, right := 7 }

/-- C7: evaluation of the code at a concrete input.  With DECOM on and
horizontal margin starting at 3, applyOriginMode of a Rect with top=1 and
left=5 yields left = 1 + 3 = 4 (the source derives left from area.top,
Screen.h line 357), while translating the left corner as the claim states
would yield 5 + 3 = 8; top, bottom and right are translated as claimed. -/
theorem C7_applyOriginModeRect_left_uses_top :
    (applyOriginModeRect screenDecom c7Area).left
        = c7Area.top + screenDecom.margin.horizontal.from_
    ∧ (applyOriginModeRect screenDecom c7Area).left
        ≠ c7Area.left + screenDecom.margin.horizontal.from_
    ∧ (applyOriginModeRect screenDecom c7Area).top
        = c7Area.top + screenDecom.margin.vertical.from_
    ∧ (applyOriginModeRect screenDecom c7Area).bottom
        = c7Area.bottom + screenDecom.margin.vertical.from_
    ∧ (applyOriginModeRect screenDecom c7Area).right
        = c7Area.right + screenDecom.margin.horizontal.from_ := by
  refine ⟨rfl, by decide, rfl, rfl, rfl⟩

/-- C9 counterexample: on a 24x80 screen, the coordinate (0, 80) satisfies
contains (the column check is non-strict) but clampToScreen moves it to
(0, 79), so contains does not accept exactly the clamp-fixed points. -/
theorem C9_contains_counterexample :
    contains screen24x80 ⟨0, 80⟩ = true
    ∧ clampToScreen screen24x80 ⟨0, 80⟩ ≠ ⟨0, 80⟩ := by
  constructor
  · rfl
  · decide

/-- C9 (amended): contains (clampToScreen c) always holds and every
clamp-fixed coordinate satisfies contains; conversely a coordinate
satisfying contains is clamp-fixed provided its column differs from
pageSize().columns — contains additionally accepts column ==
pageSize().columns, which clampToScreen moves to the last column. -/
theorem C9_contains_clamp_amended (s : CoordScreen) (c : CellLocation)
    (hl : 0 < s.pageSize.lines) (hc : 0 < s.pageSize.columns) :
    contains s (clampToScreen s c) = true
    ∧ (clampToScreen s c = c → contains s c = true)
    ∧ (contains s c = true → c.column ≠ s.pageSize.columns →
        clampToScreen s c = c) := by
  have h1 := cppClamp_nonneg c.line (s.pageSize.lines - 1) (by omega)
  have h2 := cppClamp_le c.line (s.pageSize.lines - 1) (by omega)
  have h3 := cppClamp_nonneg c.column (s.pageSize.columns - 1) (by omega)
  have h4 := cppClamp_le c.column (s.pageSize.columns - 1) (by omega)
  refine ⟨?_, ?_, ?_⟩
  · simp only [contains, clampToScreen, clampedLine, clampedColumn,
               Bool.and_eq_true, decide_eq_true_eq]
    omega
  · intro hfix
    have hline : (clampToScreen s c).line = c.line := by rw [hfix]
    have hcol : (clampToScreen s c).column = c.column := by rw [hfix]
    simp only [clampToScreen, clampedLine, clampedColumn] at hline hcol
    simp only [contains, Bool.and_eq_true, decide_eq_true_eq]
    omega
  · intro hin hne
    simp only [contains, Bool.and_eq_true, decide_eq_true_eq] at hin
    show CellLocation.mk (cppClamp c.line 0 (s.pageSize.lines - 1))
          (cppClamp c.column 0 (s.pageSize.columns - 1)) = c
    rw [cppClamp_eq_self c.line 0 (s.pageSize.lines - 1) hin.1.1.1 (by omega),
        cppClamp_eq_self c.column 0 (s.pageSize.columns - 1) hin.1.2 (by omega)]

/-- One grid cell: codepoint sequence, display width, hyperlink id
(0 = no hyperlink), following the Cell concept of CellConcept.h. -/
structure Cell where
  text : List Char
  width : Nat
  hyperlink : Nat
deriving DecidableEq, Repr

/-- A blank cell: no codepoints, width 1, no hyperlink. -/
def blankCell : Cell := { text := [], width := 1, hyperlink := 0 }

/-- TrivialLineBuffer: the compact form of an untouched line — a UTF-8 byte
run plus one line-level hyperlink id (field `hyperlink` as consulted by
Screen::hyperlinkIdAt). -/
structure TrivialLineBuffer where
  text : List Char
  hyperlink : Nat
deriving DecidableEq, Repr

/-- Line storage: trivial (compact) or inflated (per-cell), the duality
described in the spec and dispatched on by Screen::hyperlinkIdAt via
isTrivialBuffer(). -/
inductive LineStorage where
  | trivialBuf (buffer : TrivialLineBuffer)
  | inflatedBuf (cells : List Cell)
deriving DecidableEq, Repr

/-- Grid::lineAt on the modelled grid (a list of line storages); offsets
are list indices here, out-of-range reads give an empty inflated line. -/
def lineAt (lines : List LineStorage) (l : Nat) : LineStorage :=
  lines.getD l (.inflatedBuf [])

/-- Screen::hyperlinkIdAt: if the addressed line is a trivial buffer,
return the buffer's line-level hyperlink id; otherwise return the
addressed cell's hyperlink id. -/
def hyperlinkIdAt (lines : List LineStorage) (l c : Nat) : Nat :=
  match lineAt lines l with
  | .trivialBuf buffer => buffer.hyperlink
  | .inflatedBuf cells => (cells.getD c blankCell).hyperlink

/-- A two-line sample grid: a trivial line with hyperlink id 7 and an
inflated line whose only cell has hyperlink id 3. -/
def linksSample : List LineStorage :=
  [.trivialBuf { text := ['h', 'i'], hyperlink := 7 },
   .inflatedBuf [{ text := ['a'], width := 1, hyperlink := 3 }]]

theorem C9_contains_clamp_amended_witness :
    contains screen24x80 (clampToScreen screen24x80 ⟨-3, 100⟩) = true
    ∧ (clampToScreen screen24x80 ⟨-3, 100⟩ = ⟨-3, 100⟩ →
        contains screen24x80 ⟨-3, 100⟩ = true)
    ∧ (contains screen24x80 ⟨-3, 100⟩ = true →
        CellLocation.column ⟨-3, 100⟩ ≠ screen24x80.pageSize.columns →
        clampToScreen screen24x80 ⟨-3, 100⟩ = ⟨-3, 100⟩) :=
  C9_contains_clamp_amended screen24x80 ⟨-3, 100⟩ (by decide) (by decide)

/-- C10: on a line stored in trivial form, hyperlinkIdAt returns the single
line-level hyperlink id of the trivial buffer for every queried column (the
query is read-only, so the line is not inflated); on an inflated line it
returns the addressed cell's hyperlink id. -/
theorem C10_hyperlinkIdAt_dispatch (lines : List LineStorage) (l c : Nat) :
    (∀ buffer, lineAt lines l = .trivialBuf buffer →
        hyperlinkIdAt lines l c = buffer.hyperlink
        ∧ ∀ c2, hyperlinkIdAt lines l c2 = hyperlinkIdAt lines l c)
    ∧ (∀ cells, lineAt lines l = .inflatedBuf cells →
        hyperlinkIdAt lines l c = (cells.getD c blankCell).hyperlink) := by
  constructor
  · intro buffer hb
    constructor
    · simp [hyperlinkIdAt, hb]
    · intro c2
      simp [hyperlinkIdAt, hb]
  · intro cells hc
    simp [hyperlinkIdAt, hc]

theorem C10_hyperlinkIdAt_dispatch_witness :
    hyperlinkIdAt linksSample 0 5 = 7 ∧ hyperlinkIdAt linksSample 1 0 = 3 :=
  ⟨((C10_hyperlinkIdAt_dispatch linksSample 0 5).1
      { text := ['h', 'i'], hyperlink := 7 } rfl).1,
   (C10_hyperlinkIdAt_dispatch linksSample 1 0).2
      [{ text := ['a'], width := 1, hyperlink := 3 }] rfl⟩

end Contour

namespace Contour

/-- Modelled from the spec: Line inflation of a trivial buffer ("a trivial
line ... is only inflated into per-cell storage on first mutation"; Line.h
is not among the provided sources).  Every character of the byte run
becomes one cell carrying the buffer's hyperlink id; the remaining columns
of the page width are blank cells. -/
def inflateLine (w : Nat) (line : LineStorage) : List Cell :=
  match line with
  | .trivialBuf buffer =>
      buffer.text.map (fun ch => { text := [ch], width := 1, hyperlink := buffer.hyperlink })
        ++ List.replicate (w - buffer.text.length) blankCell
  | .inflatedBuf cells => cells

/-- Modelled from the spec: the per-cell write path of
writeText(string_view, cellCount) — each character is emplaced into the
cell at the next column, carrying the active hyperlink id `hl`
(Screen.cpp is not among the provided sources). -/
def writeCellsFrom (cells : List Cell) (col : Nat) (hl : Nat) (chars : List Char) : List Cell :=
  match chars with
  | [] => cells
  | ch :: rest =>
      writeCellsFrom (cells.set col { text := [ch], width := 1, hyperlink := hl }) (col + 1) hl rest

/-- Modelled from the spec: Screen::tryEmplaceChars and its enclosing
dispatch ("Multi-byte runs are emplaced directly into a still-trivial line
when contiguous and the line is otherwise untouched; when not contiguous,
the call falls back to a per-cell path and must inflate the line first";
Screen.cpp is not among the provided sources).  Contiguity is a memory
property of the C++ string views (isContiguousToCurrentLine, Screen.h line
621: the run starts exactly where the trivial buffer's bytes end); it is
modelled as the write continuing at the end of the trivial buffer with the
buffer's own hyperlink id. -/
def writeTextRun (w : Nat) (line : LineStorage) (col hl : Nat) (chars : List Char) : LineStorage :=
  match line with
  | .trivialBuf buffer =>
      if col = buffer.text.length ∧ hl = buffer.hyperlink then
        .trivialBuf { buffer with text := buffer.text ++ chars }
      else
        .inflatedBuf (writeCellsFrom (inflateLine w line) col hl chars)
  | .inflatedBuf cells => .inflatedBuf (writeCellsFrom cells col hl chars)

theorem list_set_append_length {α : Type} (xs ys : List α) (y z : α) :
    (xs ++ y :: ys).set xs.length z = xs ++ z :: ys := by
  induction xs with
  | nil => rfl
  | cons a as ih => simpa using ih

theorem inflate_snoc (w hl : Nat) (t : List Char) (ch : Char) (hlen : t.length < w) :
    inflateLine w (.trivialBuf { text := t ++ [ch], hyperlink := hl })
      = (inflateLine w (.trivialBuf { text := t, hyperlink := hl })).set t.length
          { text := [ch], width := 1, hyperlink := hl } := by
  simp only [inflateLine, List.map_append, List.map_cons, List.map_nil,
             List.length_append, List.length_cons, List.length_nil]
  have hrep : w - t.length = (w - (t.length + 1)) + 1 := by omega
  rw [hrep, List.replicate_succ]
  have := list_set_append_length
    (t.map fun ch => ({ text := [ch], width := 1, hyperlink := hl } : Cell))
    (List.replicate (w - (t.length + 1)) blankCell) blankCell
    ({ text := [ch], width := 1, hyperlink := hl } : Cell)
  simp only [List.length_map] at this
  rw [this]
  simp

theorem emplace_then_inflate (w hl : Nat) (t chars : List Char)
    (hfit : t.length + chars.length ≤ w) :
    inflateLine w (.trivialBuf { text := t ++ chars, hyperlink := hl })
      = writeCellsFrom (inflateLine w (.trivialBuf { text := t, hyperlink := hl }))
          t.length hl chars := by
  induction chars generalizing t with
  | nil => simp [writeCellsFrom]
  | cons ch rest ih =>
    have hlen : t.length < w := by
      simp only [List.length_cons] at hfit; omega
    have hfit2 : (t ++ [ch]).length + rest.length ≤ w := by
      simp only [List.length_append, List.length_cons, List.length_nil]
      simp only [List.length_cons] at hfit; omega
    calc inflateLine w (.trivialBuf { text := t ++ ch :: rest, hyperlink := hl })
        = inflateLine w (.trivialBuf { text := (t ++ [ch]) ++ rest, hyperlink := hl }) := by
          simp
      _ = writeCellsFrom (inflateLine w (.trivialBuf { text := t ++ [ch], hyperlink := hl }))
            (t ++ [ch]).length hl rest := ih (t ++ [ch]) hfit2
      _ = writeCellsFrom ((inflateLine w (.trivialBuf { text := t, hyperlink := hl })).set
            t.length { text := [ch], width := 1, hyperlink := hl }) (t.length + 1) hl rest := by
          rw [inflate_snoc w hl t ch hlen]
          simp
      _ = writeCellsFrom (inflateLine w (.trivialBuf { text := t, hyperlink := hl }))
            t.length hl (ch :: rest) := rfl

/-- C2: writing a run through the trivial-line fast path (emplacing the
characters directly into the still-trivial buffer, taken when the run is
contiguous) yields exactly the same final grid content — the inflated view
of the line — as writing the same run cell-by-cell through the per-cell
path; and when the run is not contiguous the call is, by definition of the
fallback, the per-cell path applied after inflating the line. -/
theorem C2_tryEmplaceChars_refines_per_cell (w : Nat) (line : LineStorage)
    (col hl : Nat) (chars : List Char)
    (hfit : ∀ buffer, line = .trivialBuf buffer → col = buffer.text.length →
        buffer.text.length + chars.length ≤ w) :
    inflateLine w (writeTextRun w line col hl chars)
      = writeCellsFrom (inflateLine w line) col hl chars
    ∧ (∀ buffer, line = .trivialBuf buffer →
        ¬(col = buffer.text.length ∧ hl = buffer.hyperlink) →
        writeTextRun w line col hl chars
          = .inflatedBuf (writeCellsFrom (inflateLine w line) col hl chars)) := by
  constructor
  · match line with
    | .trivialBuf buffer =>
      by_cases hcond : col = buffer.text.length ∧ hl = buffer.hyperlink
      · obtain ⟨hcol, hhl⟩ := hcond
        have hfit2 := hfit buffer rfl hcol
        subst hcol hhl
        simpa [writeTextRun] using emplace_then_inflate w buffer.hyperlink buffer.text chars hfit2
      · simp [writeTextRun, hcond, inflateLine]
    | .inflatedBuf cells => rfl
  · intro buffer hline hcond
    subst hline
    simp [writeTextRun, hcond]

/-- A trivial line holding "hi" with hyperlink id 0, page width 5. -/
def emplaceSample : LineStorage := .trivialBuf { text := ['h', 'i'], hyperlink := 0 }

theorem C2_tryEmplaceChars_refines_per_cell_witness :
    inflateLine 5 (writeTextRun 5 emplaceSample 2 0 ['y', 'o'])
      = writeCellsFrom (inflateLine 5 emplaceSample) 2 0 ['y', 'o']
    ∧ (∀ buffer, emplaceSample = .trivialBuf buffer →
        ¬(2 = buffer.text.length ∧ 0 = buffer.hyperlink) →
        writeTextRun 5 emplaceSample 2 0 ['y', 'o']
          = .inflatedBuf (writeCellsFrom (inflateLine 5 emplaceSample) 2 0 ['y', 'o'])) :=
  C2_tryEmplaceChars_refines_per_cell 5 emplaceSample 2 0 ['y', 'o']
    (fun buffer hb hcol => by
      cases hb
      decide)

end Contour

namespace Contour

/-- The primary-screen grid slice the scrollback claims need: the configured
history capacity (none = infinite), the history lines (oldest first) and the
visible page lines (top first).  Generic in the line type. -/
structure HistGrid (α : Type) where
  maxHistory : Option Nat
  history : List α
  page : List α

/-- Modelled from the spec: scrollback capacity enforcement ("oldest
scrollback line is evicted to make room"; Grid.h is not among the provided
sources).  With a finite capacity the oldest (front) lines beyond the
capacity are dropped. -/
def capHistory {α : Type} (cap : Option Nat) (h : List α) : List α :=
  match cap with
  | none => h
  | some c => h.drop (h.length - c)

/-- Modelled from the spec: Grid::scrollUp for the primary screen when the
margin's top equals the page top and the margin spans the full width
(Grid.h is not among the provided sources): the top n lines move into
history (subject to capacity eviction, oldest first), the remaining visible
lines shift up by n, and n blank lines appear at the bottom. -/
def scrollUpPage {α : Type} (g : HistGrid α) (n : Nat) (blank : α) : HistGrid α :=
  { g with
    history := capHistory g.maxHistory (g.history ++ g.page.take n),
    page := g.page.drop n ++ List.replicate (min n g.page.length) blank }

/-- Screen::historyLineCount, delegating to the grid. -/
def historyLineCount {α : Type} (g : HistGrid α) : Nat := g.history.length

theorem scrolled_out_length {α : Type} (g : HistGrid α) (n : Nat)
    (hn : n ≤ g.page.length) :
    (g.history ++ g.page.take n).length = g.history.length + n := by
  simp [List.length_append, List.length_take, Nat.min_eq_left hn]

/-- C3: scrolling the primary screen up by n lines (margin top = page top)
moves the top n lines into history: historyLineCount grows by exactly n
while capacity allows; once the capacity is exceeded the history holds
exactly the capacity, with the oldest lines evicted; the page keeps its
length, the surviving visible lines shift up by n, and the vacated bottom
lines are blank. -/
theorem C3_scrollUp_moves_lines_to_history (α : Type) (g : HistGrid α)
    (n : Nat) (blank : α) (hn : n ≤ g.page.length) :
    (g.maxHistory = none →
        historyLineCount (scrollUpPage g n blank) = historyLineCount g + n)
    ∧ (∀ cap, g.maxHistory = some cap → g.history.length + n ≤ cap →
        historyLineCount (scrollUpPage g n blank) = historyLineCount g + n)
    ∧ (∀ cap, g.maxHistory = some cap → cap ≤ g.history.length + n →
        historyLineCount (scrollUpPage g n blank) = cap
        ∧ (scrollUpPage g n blank).history
            = (g.history ++ g.page.take n).drop (g.history.length + n - cap))
    ∧ (scrollUpPage g n blank).page.length = g.page.length
    ∧ (∀ i, i + n < g.page.length →
        (scrollUpPage g n blank).page.getD i blank = g.page.getD (i + n) blank)
    ∧ (∀ i, g.page.length - n ≤ i → i < g.page.length →
        (scrollUpPage g n blank).page.getD i blank = blank) := by
  have hout := scrolled_out_length g n hn
  refine ⟨?_, ?_, ?_, ?_, ?_, ?_⟩
  · intro hcap
    simp [scrollUpPage, historyLineCount, capHistory, hcap, hout]
  · intro cap hcap hfits
    have hz : (g.history ++ g.page.take n).length - cap = 0 := by omega
    simp [scrollUpPage, historyLineCount, capHistory, hcap, hz, hout]
    omega
  · intro cap hcap hexceeds
    constructor
    · simp only [scrollUpPage, historyLineCount, capHistory, hcap,
                 List.length_drop, hout]
      omega
    · simp only [scrollUpPage, capHistory, hcap, hout]
  · simp only [scrollUpPage, List.length_append, List.length_drop,
               List.length_replicate]
    omega
  · intro i hi
    have hlt : i < (g.page.drop n).length := by
      simp [List.length_drop]; omega
    simp only [scrollUpPage]
    rw [List.getD_append _ _ _ _ hlt]
    simp only [List.getD_eq_getElem?_getD, List.getElem?_drop]
    rw [Nat.add_comm n i]
  · intro i hge hlt
    have hlen : (g.page.drop n).length ≤ i := by
      simp [List.length_drop]; omega
    simp only [scrollUpPage]
    rw [List.getD_append_right _ _ _ _ hlen]
    simp only [List.getD_eq_getElem?_getD, List.getElem?_replicate]
    split <;> rfl

/-- A concrete history grid: capacity 3, two history lines, a four-line
page. -/
def histSample : HistGrid Nat :=
  { maxHistory := some 3, history := [100, 101], page := [1, 2, 3, 4] }

theorem C3_scrollUp_moves_lines_to_history_witness :
    (histSample.maxHistory = none →
        historyLineCount (scrollUpPage histSample 2 0) = historyLineCount histSample + 2)
    ∧ (∀ cap, histSample.maxHistory = some cap → histSample.history.length + 2 ≤ cap →
        historyLineCount (scrollUpPage histSample 2 0) = historyLineCount histSample + 2)
    ∧ (∀ cap, histSample.maxHistory = some cap → cap ≤ histSample.history.length + 2 →
        historyLineCount (scrollUpPage histSample 2 0) = cap
        ∧ (scrollUpPage histSample 2 0).history
            = (histSample.history ++ histSample.page.take 2).drop
                (histSample.history.length + 2 - cap))
    ∧ (scrollUpPage histSample 2 0).page.length = histSample.page.length
    ∧ (∀ i, i + 2 < histSample.page.length →
        (scrollUpPage histSample 2 0).page.getD i 0 = histSample.page.getD (i + 2) 0)
    ∧ (∀ i, histSample.page.length - 2 ≤ i → i < histSample.page.length →
        (scrollUpPage histSample 2 0).page.getD i 0 = 0) :=
  C3_scrollUp_moves_lines_to_history Nat histSample 2 0 (by decide)

end Contour

namespace Contour

/-- A line as the reflow algorithm sees it: its text and the wrap mark
(`isLineWrapped`: the line is a continuation of the line above due to an
autowrap). -/
structure FlowLine where
  text : List Char
  wrapped : Bool
deriving DecidableEq, Repr

/-- Splits a logical line's text into page-width chunks.  The fuel
argument (instantiated with the text length, which suffices because every
step consumes at least one character) makes the recursion structural. -/
def chunkTextFuel (w : Nat) : Nat → List Char → List (List Char)
  | 0, t => [t]
  | fuel + 1, t =>
    if w = 0 ∨ t.length ≤ w then [t]
    else t.take w :: chunkTextFuel w fuel (t.drop w)

/-- Splits text into chunks of at most w columns; every chunk but the last
has exactly w columns. -/
def chunkText (w : Nat) (t : List Char) : List (List Char) :=
  chunkTextFuel w t.length t

/-- Turns the chunks of one logical line into grid lines: the first chunk
is not a continuation, every further chunk carries the wrap mark. -/
def tagChunks : List (List Char) → List FlowLine
  | [] => []
  | c :: cs => { text := c, wrapped := false }
      :: cs.map (fun u => { text := u, wrapped := true })

/-- Wraps a list of logical lines to page width w. -/
def rewrap (w : Nat) (logical : List (List Char)) : List FlowLine :=
  (logical.map (fun t => tagChunks (chunkText w t))).join

/-- Joins wrapped continuations onto the logical line being accumulated. -/
def unwrapAux (cur : List Char) : List FlowLine → List (List Char)
  | [] => [cur]
  | l :: ls =>
    if l.wrapped then unwrapAux (cur ++ l.text) ls
    else cur :: unwrapAux l.text ls

/-- Recovers the logical lines of a grid by merging each run of
wrap-marked lines into the line above. -/
def unwrap : List FlowLine → List (List Char)
  | [] => []
  | l :: ls => unwrapAux l.text ls

/-- Modelled from the spec: Grid::resize with reflow enabled ("logically
re-wraps existing content to the new column count (merging/re-splitting
wrapped lines)"; Grid.h is not among the provided sources).  The buffer's
wrapped lines are merged back into logical lines and re-split at the new
column count. -/
def reflow (w : Nat) (g : List FlowLine) : List FlowLine :=
  rewrap w (unwrap g)

theorem chunkTextFuel_join (w : Nat) (fuel : Nat) (t : List Char)
    (h : t.length ≤ fuel) : (chunkTextFuel w fuel t).join = t := by
  induction fuel generalizing t with
  | zero =>
    have : t = [] := List.eq_nil_of_length_eq_zero (by omega)
    subst this
    simp [chunkTextFuel]
  | succ fuel ih =>
    simp only [chunkTextFuel]
    split
    · simp
    · rename_i hcond
      push_neg at hcond
      have hw : w ≠ 0 := hcond.1
      have hlong : w < t.length := hcond.2
      have hdrop : (t.drop w).length ≤ fuel := by
        simp only [List.length_drop]; omega
      simp [ih (t.drop w) hdrop]

theorem chunkText_join (w : Nat) (t : List Char) : (chunkText w t).join = t :=
  chunkTextFuel_join w t.length t (Nat.le_refl _)

theorem chunkTextFuel_shape (w fuel : Nat) (t : List Char) :
    ∃ c cs, chunkTextFuel w fuel t = c :: cs := by
  cases fuel with
  | zero => exact ⟨t, [], rfl⟩
  | succ fuel =>
    simp only [chunkTextFuel]
    split
    · exact ⟨t, [], rfl⟩
    · exact ⟨t.take w, chunkTextFuel w fuel (t.drop w), rfl⟩

theorem rewrap_cons (w : Nat) (t : List Char) (ts : List (List Char)) :
    rewrap w (t :: ts) = tagChunks (chunkText w t) ++ rewrap w ts := rfl

theorem unwrapAux_wrapped_run (cs : List (List Char)) (rest : List FlowLine)
    (cur : List Char) :
    unwrapAux cur (cs.map (fun u => { text := u, wrapped := true }) ++ rest)
      = unwrapAux (cur ++ cs.join) rest := by
  induction cs generalizing cur with
  | nil => simp
  | cons c cs ih =>
    calc unwrapAux cur ((c :: cs).map (fun u => ({ text := u, wrapped := true } : FlowLine)) ++ rest)
        = unwrapAux (cur ++ c) (cs.map (fun u => ({ text := u, wrapped := true } : FlowLine)) ++ rest) := rfl
      _ = unwrapAux ((cur ++ c) ++ cs.join) rest := ih (cur ++ c)
      _ = unwrapAux (cur ++ (c :: cs).join) rest := by rw [List.append_assoc]; rfl

theorem unwrapAux_of_rewrap (w : Nat) (L : List (List Char)) (cur : List Char) :
    unwrapAux cur (rewrap w L) = cur :: unwrap (rewrap w L) := by
  cases L with
  | nil => simp [rewrap, unwrapAux, unwrap]
  | cons t ts =>
    obtain ⟨c, cs, hshape⟩ := chunkTextFuel_shape w t.length t
    have hshape2 : chunkText w t = c :: cs := hshape
    have hrw : rewrap w (t :: ts)
        = { text := c, wrapped := false }
            :: (cs.map (fun u => ({ text := u, wrapped := true } : FlowLine)) ++ rewrap w ts) := by
      rw [rewrap_cons w t ts, hshape2]; rfl
    rw [hrw]
    rfl

theorem unwrap_rewrap (w : Nat) (L : List (List Char)) :
    unwrap (rewrap w L) = L := by
  induction L with
  | nil => rfl
  | cons t ts ih =>
    obtain ⟨c, cs, hshape⟩ := chunkTextFuel_shape w t.length t
    have hshape2 : chunkText w t = c :: cs := hshape
    have hjoin : c ++ cs.join = t := by
      have h2 := chunkText_join w t
      rw [hshape2] at h2
      exact h2
    have hrw : rewrap w (t :: ts)
        = { text := c, wrapped := false }
            :: (cs.map (fun u => ({ text := u, wrapped := true } : FlowLine)) ++ rewrap w ts) := by
      rw [rewrap_cons w t ts, hshape2]; rfl
    rw [hrw]
    show unwrapAux c (cs.map (fun u => ({ text := u, wrapped := true } : FlowLine)) ++ rewrap w ts)
      = t :: ts
    rw [unwrapAux_wrapped_run cs (rewrap w ts) c, hjoin,
        unwrapAux_of_rewrap w ts t, ih]

/-- C4: with reflow enabled and no intervening writes, resizing a screen
whose buffer is a proper wrapping at its current width w to any other
width w2 and back to w restores the original buffer exactly — every line's
text (and wrap mark) is as before. -/
theorem C4_reflow_resize_roundtrip (w w2 : Nat) (g : List FlowLine)
    (hwf : g = reflow w g) :
    reflow w (reflow w2 g) = g := by
  conv_rhs => rw [hwf]
  show rewrap w (unwrap (rewrap w2 (unwrap g))) = rewrap w (unwrap g)
  rw [unwrap_rewrap w2 (unwrap g)]

/-- A three-line sample buffer at width 3: the logical lines are "abcde"
(wrapped across two grid lines) and "xy". -/
def reflowSample : List FlowLine :=
  [{ text := ['a', 'b', 'c'], wrapped := false },
   { text := ['d', 'e'], wrapped := true },
   { text := ['x', 'y'], wrapped := false }]

theorem C4_reflow_resize_roundtrip_witness :
    reflow 3 (reflow 5 reflowSample) = reflowSample :=
  C4_reflow_resize_roundtrip 3 5 reflowSample (by decide)

end Contour

namespace Contour

/-- One cell as the write path sees it: glyph codepoints and display
width. -/
structure WCell where
  text : List Char
  width : Nat
deriving DecidableEq, Repr

/-- An empty cell: no codepoints, width 1. -/
def emptyWCell : WCell := { text := [], width := 1 }

/-- A grid line for the write path: its cells (inflated view) and the wrap
mark. -/
structure WLine where
  cells : List WCell
  wrapped : Bool
deriving DecidableEq, Repr

/-- A default (empty) line for out-of-range reads. -/
def defaultWLine : WLine := { cells := [], wrapped := false }

/-- A blank line of the given width. -/
def blankWLine (w : Nat) : WLine :=
  { cells := List.replicate w emptyWCell, wrapped := false }

/-- The Screen-state slice used by the write path: page size, margins
(margin().vertical.from/to and margin().horizontal.from/to as
marginTop/marginBottom/marginLeft/marginRight, all inclusive offsets),
cursor position, the pending-wrap flag, and the page lines. -/
structure WScreen where
  pageLines : Nat
  pageColumns : Nat
  marginTop : Nat
  marginBottom : Nat
  marginLeft : Nat
  marginRight : Nat
  cursorLine : Nat
  cursorColumn : Nat
  wrapPending : Bool
  lines : List WLine
deriving DecidableEq, Repr

/-- Grid::lineAt on the write-path state. -/
def lineAtW (s : WScreen) (l : Nat) : WLine := s.lines.getD l defaultWLine

/-- Writes one cell of the grid. -/
def setCellAtW (s : WScreen) (l c : Nat) (cell : WCell) : WScreen :=
  let line := lineAtW s l
  { s with lines := s.lines.set l { line with cells := line.cells.set c cell } }

/-- Marks a line with the wrap flag. -/
def markWrapped (s : WScreen) (l : Nat) : WScreen :=
  { s with lines := s.lines.set l ({ lineAtW s l with wrapped := true }) }

/-- Modelled from the spec: the one-line scroll performed by a linefeed at
the bottom margin (Grid::scrollUp by one; Grid.h is not among the provided
sources): lines inside the vertical margin shift up, a blank line appears
at the bottom margin. -/
def scrollUpOneW (s : WScreen) : WScreen :=
  { s with lines := (List.range s.lines.length).map (fun i =>
      if s.marginTop ≤ i ∧ i < s.marginBottom then lineAtW s (i + 1)
      else if i = s.marginBottom then blankWLine s.pageColumns
      else lineAtW s i) }

/-- Modelled from the spec: Screen::crlf = linefeed(margin().horizontal.from)
(Screen.h line 148; linefeed's body is in Screen.cpp, not among the
provided sources): move the cursor to the left margin of the next line; at
the bottom margin the content scrolls up by one instead. -/
def crlf (s : WScreen) : WScreen :=
  if s.cursorLine = s.marginBottom then
    { scrollUpOneW s with cursorColumn := s.marginLeft, wrapPending := false }
  else
    { s with cursorLine := s.cursorLine + 1, cursorColumn := s.marginLeft,
             wrapPending := false }

/-- Modelled from the spec: Screen::crlfIfWrapPending (declared at Screen.h
line 149; body not among the provided sources): when the pending-wrap flag
is set, perform the deferred wrap — mark the old line wrapped and advance
to the next line — before anything is written; otherwise do nothing. -/
def crlfIfWrapPending (s : WScreen) : WScreen :=
  if s.wrapPending then crlf (markWrapped s s.cursorLine) else s

/-- Modelled from the spec: Screen::advanceCursorAfterWrite (declared at
Screen.h line 573): advance the cursor by the written width unless that
would move it past the right margin, in which case the pending-wrap flag
is set instead of wrapping immediately. -/
def advanceCursorAfterWrite (s : WScreen) (w : Nat) : WScreen :=
  if s.cursorColumn + w ≤ s.marginRight then
    { s with cursorColumn := s.cursorColumn + w }
  else
    { s with wrapPending := true }

/-- Modelled from the spec: Screen::writeCharToCurrentAndAdvance (declared
at Screen.h line 582): place the glyph at the cursor, then advance. -/
def writeCharToCurrentAndAdvance (s : WScreen) (ch : Char) (w : Nat) : WScreen :=
  advanceCursorAfterWrite
    (setCellAtW s s.cursorLine s.cursorColumn { text := [ch], width := w }) w

/-- Modelled from the spec: Screen::writeText(char32_t) (declared at
Screen.h line 120; body not among the provided sources): consume a pending
wrap first, then write the glyph and advance.  The display width w of the
character arrives precomputed from the decoder (spec section 6). -/
def writeText (s : WScreen) (ch : Char) (w : Nat) : WScreen :=
  writeCharToCurrentAndAdvance (crlfIfWrapPending s) ch w

theorem getD_set_self {α : Type} (xs : List α) (i : Nat) (a d : α)
    (h : i < xs.length) : (xs.set i a).getD i d = a := by
  induction xs generalizing i with
  | nil => simp at h
  | cons x xs ih =>
    cases i with
    | zero => rfl
    | succ i => exact ih i (by simpa using h)

theorem advanceCursorAfterWrite_lines (s : WScreen) (w : Nat) :
    (advanceCursorAfterWrite s w).lines = s.lines := by
  unfold advanceCursorAfterWrite; split_ifs <;> rfl

theorem crlf_lines_of_ne (s : WScreen) (hb : ¬s.cursorLine = s.marginBottom) :
    (crlf s).lines = s.lines := by
  unfold crlf
  rw [if_neg hb]

end Contour

namespace Contour

/-- C1: writeText first performs the deferred wrap when the pending-wrap
flag is set (clearing the flag, moving the cursor to the left margin of
the next line, and marking the old line wrapped), and when writing the
glyph would move the cursor past the right margin it sets the pending-wrap
flag instead of wrapping immediately (cursor stays put); consequently the
cursor column is at most the right margin after every writeText call. -/
theorem C1_writeText_pending_wrap (s : WScreen) (ch : Char) (w : Nat)
    (hcol : s.cursorColumn ≤ s.marginRight)
    (hlr : s.marginLeft ≤ s.marginRight) :
    writeText s ch w = writeCharToCurrentAndAdvance (crlfIfWrapPending s) ch w
    ∧ (s.wrapPending = true →
        (crlfIfWrapPending s).wrapPending = false
        ∧ (crlfIfWrapPending s).cursorColumn = s.marginLeft
        ∧ (s.cursorLine ≠ s.marginBottom →
            (crlfIfWrapPending s).cursorLine = s.cursorLine + 1
            ∧ (s.cursorLine < s.lines.length →
                (lineAtW (crlfIfWrapPending s) s.cursorLine).wrapped = true)))
    ∧ (s.wrapPending = false → s.marginRight < s.cursorColumn + w →
        (writeText s ch w).wrapPending = true
        ∧ (writeText s ch w).cursorLine = s.cursorLine
        ∧ (writeText s ch w).cursorColumn = s.cursorColumn)
    ∧ (writeText s ch w).cursorColumn ≤ s.marginRight := by
  refine ⟨rfl, ?_, ?_, ?_⟩
  · intro hwp
    simp only [crlfIfWrapPending, hwp, if_true]
    by_cases hb : s.cursorLine = s.marginBottom
    · refine ⟨?_, ?_, ?_⟩
      · simp [crlf, markWrapped, hb]
      · simp [crlf, markWrapped, hb]
      · intro hne; exact absurd hb hne
    · refine ⟨?_, ?_, ?_⟩
      · simp [crlf, markWrapped, hb]
      · simp [crlf, markWrapped, hb]
      · intro _
        constructor
        · simp [crlf, markWrapped, hb]
        · intro hlen
          have h1 : (crlf (markWrapped s s.cursorLine)).lines
              = (markWrapped s s.cursorLine).lines :=
            crlf_lines_of_ne (markWrapped s s.cursorLine) hb
          show ((crlf (markWrapped s s.cursorLine)).lines.getD
              s.cursorLine defaultWLine).wrapped = true
          rw [h1]
          show ((s.lines.set s.cursorLine
              ({ lineAtW s s.cursorLine with wrapped := true })).getD
                s.cursorLine defaultWLine).wrapped = true
          rw [getD_set_self s.lines s.cursorLine _ defaultWLine hlen]
  · intro hwp hover
    have hid : crlfIfWrapPending s = s := by simp [crlfIfWrapPending, hwp]
    simp only [writeText, hid, writeCharToCurrentAndAdvance, setCellAtW,
               advanceCursorAfterWrite]
    rw [if_neg (by omega : ¬s.cursorColumn + w ≤ s.marginRight)]
    exact ⟨rfl, rfl, rfl⟩
  · by_cases hwp : s.wrapPending
    · have hcc : (crlfIfWrapPending s).cursorColumn = s.marginLeft := by
        simp only [crlfIfWrapPending, hwp, if_true]
        by_cases hb : s.cursorLine = s.marginBottom <;>
          simp [crlf, markWrapped, hb]
      have hmr : (crlfIfWrapPending s).marginRight = s.marginRight := by
        simp only [crlfIfWrapPending, hwp, if_true]
        by_cases hb : s.cursorLine = s.marginBottom <;>
          simp [crlf, markWrapped, scrollUpOneW, hb]
      simp only [writeText, writeCharToCurrentAndAdvance, setCellAtW,
                 advanceCursorAfterWrite]
      split_ifs with hfits
      · simp only at hfits ⊢
        omega
      · simp only
        omega
    · have hwp2 : s.wrapPending = false := by simpa using hwp
      have hid : crlfIfWrapPending s = s := by simp [crlfIfWrapPending, hwp2]
      simp only [writeText, hid, writeCharToCurrentAndAdvance, setCellAtW,
                 advanceCursorAfterWrite]
      split_ifs with hfits
      · simp only at hfits ⊢
        omega
      · simp only
        omega

end Contour

namespace Contour

/-- A 2x3 screen with full-page margins, cursor in the last column with a
wrap pending, and two blank lines. -/
def writeSample : WScreen :=
  { pageLines := 2, pageColumns := 3,
    marginTop := 0, marginBottom := 1, marginLeft := 0, marginRight := 2,
    cursorLine := 0, cursorColumn := 2, wrapPending := true,
    lines := [blankWLine 3, blankWLine 3] }

theorem C1_writeText_pending_wrap_witness :
    writeText writeSample 'a' 1
        = writeCharToCurrentAndAdvance (crlfIfWrapPending writeSample) 'a' 1
    ∧ (writeSample.wrapPending = true →
        (crlfIfWrapPending writeSample).wrapPending = false
        ∧ (crlfIfWrapPending writeSample).cursorColumn = writeSample.marginLeft
        ∧ (writeSample.cursorLine ≠ writeSample.marginBottom →
            (crlfIfWrapPending writeSample).cursorLine = writeSample.cursorLine + 1
            ∧ (writeSample.cursorLine < writeSample.lines.length →
                (lineAtW (crlfIfWrapPending writeSample) writeSample.cursorLine).wrapped
                  = true)))
    ∧ (writeSample.wrapPending = false →
        writeSample.marginRight < writeSample.cursorColumn + 1 →
        (writeText writeSample 'a' 1).wrapPending = true
        ∧ (writeText writeSample 'a' 1).cursorLine = writeSample.cursorLine
        ∧ (writeText writeSample 'a' 1).cursorColumn = writeSample.cursorColumn)
    ∧ (writeText writeSample 'a' 1).cursorColumn ≤ writeSample.marginRight :=
  C1_writeText_pending_wrap writeSample 'a' 1 (by decide) (by decide)

/-- Modelled from the spec: Screen::moveCursorTo (CUP; body not among the
provided sources): clamps the requested position to the page and resets
the pending-wrap flag (origin mode is outside this state slice, so the
margin translation does not apply). -/
def moveCursorTo (s : WScreen) (l c : Nat) : WScreen :=
  { s with cursorLine := min l (s.pageLines - 1),
           cursorColumn := min c (s.pageColumns - 1),
           wrapPending := false }

/-- The cell at a position: Line::inflatedBuffer()[column] of the write
model. -/
def cellAtW (s : WScreen) (l c : Nat) : WCell :=
  (lineAtW s l).cells.getD c emptyWCell

/-- Screen::cellTextAt: the addressed cell's text. -/
def cellTextAt (s : WScreen) (l c : Nat) : List Char := (cellAtW s l c).text

/-- Screen::cellWidthAt: the addressed cell's display width. -/
def cellWidthAt (s : WScreen) (l c : Nat) : Nat := (cellAtW s l c).width

/-- C8: for every in-page (line, column), moving the cursor there and
writing one ASCII character (display width 1) via writeText makes
cellTextAt of that position return exactly that one-character string and
cellWidthAt return 1. -/
theorem C8_write_ascii_readback (s : WScreen) (l c : Nat) (ch : Char)
    (hl : l < s.pageLines) (hc : c < s.pageColumns)
    (hlines : s.pageLines = s.lines.length)
    (hcells : s.pageColumns = (lineAtW s l).cells.length) :
    cellTextAt (writeText (moveCursorTo s l c) ch 1) l c = [ch]
    ∧ cellWidthAt (writeText (moveCursorTo s l c) ch 1) l c = 1 := by
  have hm : moveCursorTo s l c
      = { s with cursorLine := l, cursorColumn := c, wrapPending := false } := by
    simp only [moveCursorTo, Nat.min_eq_left (by omega : l ≤ s.pageLines - 1),
               Nat.min_eq_left (by omega : c ≤ s.pageColumns - 1)]
  rw [hm]
  have hlines2 :
      (writeText ({ s with cursorLine := l, cursorColumn := c, wrapPending := false } : WScreen) ch 1).lines
      = s.lines.set l
          ({ lineAtW s l with
              cells := (lineAtW s l).cells.set c ({ text := [ch], width := 1 } : WCell) }) := by
    rw [show writeText ({ s with cursorLine := l, cursorColumn := c, wrapPending := false } : WScreen) ch 1
        = advanceCursorAfterWrite
            (setCellAtW ({ s with cursorLine := l, cursorColumn := c, wrapPending := false } : WScreen)
              l c { text := [ch], width := 1 }) 1 from rfl]
    rw [advanceCursorAfterWrite_lines]
    rfl
  constructor
  · show (((writeText ({ s with cursorLine := l, cursorColumn := c, wrapPending := false } : WScreen) ch 1).lines.getD
        l defaultWLine).cells.getD c emptyWCell).text = [ch]
    rw [hlines2, getD_set_self s.lines l _ defaultWLine (by omega)]
    show (((lineAtW s l).cells.set c ({ text := [ch], width := 1 } : WCell)).getD c emptyWCell).text = [ch]
    rw [getD_set_self (lineAtW s l).cells c _ emptyWCell (by omega)]
  · show (((writeText ({ s with cursorLine := l, cursorColumn := c, wrapPending := false } : WScreen) ch 1).lines.getD
        l defaultWLine).cells.getD c emptyWCell).width = 1
    rw [hlines2, getD_set_self s.lines l _ defaultWLine (by omega)]
    show (((lineAtW s l).cells.set c ({ text := [ch], width := 1 } : WCell)).getD c emptyWCell).width = 1
    rw [getD_set_self (lineAtW s l).cells c _ emptyWCell (by omega)]

theorem C8_write_ascii_readback_witness :
    cellTextAt (writeText (moveCursorTo writeSample 1 2) 'x' 1) 1 2 = ['x']
    ∧ cellWidthAt (writeText (moveCursorTo writeSample 1 2) 'x' 1) 1 2 = 1 :=
  C8_write_ascii_readback writeSample 1 2 'x' (by decide) (by decide) (by decide) (by decide)

end Contour
